import Mathlib

/-!
Verification of the-go-brewery: a shallow embedding of the Gin todo
service, the Fiber book service, and the bounded worker-pool core
described by the specification, together with theorems settling the
specification's claims.
-/

namespace GoBrewery

/-! ## String helpers (from the Go sources)

`containsIgnoreCase(str, substr)` in both `main.go` files is
`strings.Contains(strings.ToLower(str), strings.ToLower(substr))`.
We embed `strings.Contains` as a contiguous-sublist check on the
character lists and `strings.ToLower` as `String.toLower`. -/

/-- Boolean check that the first character list is a prefix of the second. -/
def charsPre : List Char → List Char → Bool
  | [], _ => true
  | _ :: _, [] => false
  | a :: as, b :: bs => a == b && charsPre as bs

/-- Boolean check that `sub` occurs contiguously inside `s`
(the embedding of Go `strings.Contains s sub`). -/
def charsContains (s sub : List Char) : Bool :=
  match s with
  | [] => charsPre sub []
  | _ :: t => charsPre sub s || charsContains t sub

/-- Embedding of Go `strings.Contains`. -/
def strContains (s sub : String) : Bool :=
  charsContains s.data sub.data

/-- Embedding of `containsIgnoreCase` from both servers:
`strings.Contains(strings.ToLower(str), strings.ToLower(substr))`. -/
def containsIgnoreCase (str substr : String) : Bool :=
  strContains str.toLower substr.toLower

/-- Embedding of Go `strings.EqualFold` (case-insensitive equality),
modelled as equality of lowercased strings. -/
def equalFold (a b : String) : Bool :=
  a.toLower == b.toLower

/-- Embedding of Go `strconv.ParseBool`: accepts exactly
1, t, T, TRUE, true, True, 0, f, F, FALSE, false, False. -/
def parseBool (s : String) : Option Bool :=
  if s == "1" || s == "t" || s == "T" || s == "TRUE" || s == "true" || s == "True" then
    some true
  else if s == "0" || s == "f" || s == "F" || s == "FALSE" || s == "false" || s == "False" then
    some false
  else
    none

/-! ## The Gin todo service (`3-creating-http-server-using-gin/main.go`) -/

namespace GinTodo

/-- The `Todo` struct of the Gin service. -/
structure Todo where
  ID : String
  Item : String
  Completed : Bool
deriving DecidableEq, Repr

/-- The initial in-memory store `TODOS`. -/
def TODOS : List Todo :=
  [⟨"1", "Buy groceries", false⟩,
   ⟨"2", "Read a book", false⟩,
   ⟨"3", "Write code", false⟩,
   ⟨"4", "Go for a walk", false⟩]

/-- The filtering loop of `getTodos`: walk the store in order; skip a todo
when the `query` parameter is provided and does not match the item
(case-insensitively), or when the `status` parameter is `true`/`false`
and disagrees with the todo's `Completed` field; keep it otherwise. -/
def getTodosLoop (query status : String) : List Todo → List Todo
  | [] => []
  | todo :: rest =>
    if query != "" && !containsIgnoreCase todo.Item query then
      getTodosLoop query status rest
    else if status == "true" && !todo.Completed then
      getTodosLoop query status rest
    else if status == "false" && todo.Completed then
      getTodosLoop query status rest
    else
      todo :: getTodosLoop query status rest

/-- The per-todo predicate implicit in `getTodos`: the todo survives all
provided filters. -/
def todoMatches (query status : String) (t : Todo) : Bool :=
  (query == "" || containsIgnoreCase t.Item query) &&
  (status != "true" || t.Completed) &&
  (status != "false" || !t.Completed)

/-- The `getTodos` handler as a state transformer: it reads the store and
returns the (unchanged) store together with the filtered response body. -/
def getTodosHandler (query status : String) (store : List Todo) :
    List Todo × List Todo :=
  (store, getTodosLoop query status store)

/-- `{ t with Completed := !t.Completed }`, the in-place toggle performed by
`updateTodoStatus` on the todo returned by `getTodoById`. -/
def toggleTodo (t : Todo) : Todo :=
  { t with Completed := !t.Completed }

/-- Embedding of `updateTodoStatus` acting on the store: `getTodoById`
returns a pointer to the first todo whose `ID` matches, and the handler
toggles its `Completed` field in place; when no todo matches, the store
is left unchanged (404 path). -/
def updateTodoStatus (id : String) : List Todo → List Todo
  | [] => []
  | t :: ts =>
    if t.ID == id then toggleTodo t :: ts
    else t :: updateTodoStatus id ts

end GinTodo

/-! ## The Fiber book service (`4-creating-http-server-using-fiber/main.go`) -/

namespace FiberBooks

/-- The `Book` struct of the Fiber service. -/
structure Book where
  ID : Int
  Title : String
  Author : String
  Genre : String
  Pages : Int
  Available : Bool
  PublishedYear : Int
deriving DecidableEq, Repr

/-- Embedding of `bookMatchesSearch`: the search term occurs
case-insensitively in the title or in the author. -/
def bookMatchesSearch (book : Book) (searchTerm : String) : Bool :=
  containsIgnoreCase book.Title searchTerm || containsIgnoreCase book.Author searchTerm

/-- The filtering loop of `getAllBooks`: walk the library in order; skip a
book when the `search` parameter is provided and does not match, when the
`genre` parameter is provided and is not case-insensitively equal to the
book's genre, or when the `available` parameter is provided, parses as a
boolean, and disagrees with the book's `Available` field. -/
def getAllBooksLoop (search genre availableStr : String) : List Book → List Book
  | [] => []
  | book :: rest =>
    if search != "" && !bookMatchesSearch book search then
      getAllBooksLoop search genre availableStr rest
    else if genre != "" && !equalFold book.Genre genre then
      getAllBooksLoop search genre availableStr rest
    else if availableStr != "" &&
        (match parseBool availableStr with
         | some b => book.Available != b
         | none => false) then
      getAllBooksLoop search genre availableStr rest
    else
      book :: getAllBooksLoop search genre availableStr rest

/-- The per-book predicate implicit in `getAllBooks`: the book survives all
provided filters. -/
def bookMatchesAll (search genre availableStr : String) (b : Book) : Bool :=
  (search == "" || bookMatchesSearch b search) &&
  (genre == "" || equalFold b.Genre genre) &&
  (availableStr == "" ||
    (match parseBool availableStr with
     | some av => b.Available == av
     | none => true))

/-- The `getAllBooks` handler as a state transformer: it reads the library
and returns the (unchanged) library together with the filtered response. -/
def getAllBooksHandler (search genre availableStr : String) (store : List Book) :
    List Book × List Book :=
  (store, getAllBooksLoop search genre availableStr store)

/-- The initial in-memory `library`. -/
def library : List Book :=
  [⟨1, "The Go Programming Language", "Alan Donovan", "Technology", 380, true, 2015⟩,
   ⟨2, "Clean Code", "Robert Martin", "Technology", 464, false, 2008⟩,
   ⟨3, "The Pragmatic Programmer", "Dave Thomas", "Technology", 352, true, 1999⟩,
   ⟨4, "Design Patterns", "Gang of Four", "Technology", 395, true, 1994⟩]

/-- The mutable state of the Fiber service: the `library` slice and the
`nextID` counter.  Both `Book.ID` and `nextID` are Go `int` (64-bit)
values, carried here on `Int` with the wrap made explicit at the single
arithmetic site, the `nextID++` of `createBook` (every other use of an ID
is a comparison or a copy, which cannot overflow). -/
structure LibraryState where
  library : List Book
  nextID : Int
deriving DecidableEq, Repr

/-- The state at program start: the four seeded books and `nextID = 5`. -/
def initialState : LibraryState :=
  ⟨library, 5⟩

/-- Two's-complement wrap of Go's 64-bit `int`: reduce modulo `2 ^ 64`
into the interval from `-(2 ^ 63)` to `2 ^ 63 - 1`, written with the
explicit numerals `9223372036854775808 = 2 ^ 63` and
`18446744073709551616 = 2 ^ 64`. -/
def wrapInt64 (n : Int) : Int :=
  (n + 9223372036854775808) % 18446744073709551616 - 9223372036854775808

/-- Embedding of `createBook` acting on the state: reject when `Title` or
`Author` is empty (validation, state unchanged); otherwise overwrite the
parsed book's `ID` with `nextID`, increment `nextID` with Go's wrapping
64-bit `int` semantics (`nextID++`), and append. -/
def createBook (s : LibraryState) (newBook : Book) : LibraryState :=
  if newBook.Title == "" || newBook.Author == "" then s
  else
    { library := s.library ++ [{ newBook with ID := s.nextID }],
      nextID := wrapInt64 (s.nextID + 1) }

/-- Replace the first book whose `ID` matches with the update, whose `ID` is
overwritten with the matched ID (the `findBookByID` + `library[index] =
updates` pattern of `updateBook`); no match leaves the list unchanged. -/
def setFirstByID (id : Int) (upd : Book) : List Book → List Book
  | [] => []
  | b :: rest =>
    if b.ID == id then { upd with ID := id } :: rest
    else b :: setFirstByID id upd rest

/-- Embedding of `updateBook` acting on the state: replace the first book
with the given ID, keeping the original ID; 404 leaves the state unchanged. -/
def updateBook (s : LibraryState) (id : Int) (updates : Book) : LibraryState :=
  { s with library := setFirstByID id updates s.library }

/-- Toggle the `Available` field of the first book whose `ID` matches (the
`findBookByID` + `library[index].Available = !book.Available` pattern of
`toggleBookAvailability`); no match leaves the list unchanged. -/
def toggleFirstByID (id : Int) : List Book → List Book
  | [] => []
  | b :: rest =>
    if b.ID == id then { b with Available := !b.Available } :: rest
    else b :: toggleFirstByID id rest

/-- Embedding of `toggleBookAvailability` acting on the state. -/
def toggleBookAvailability (s : LibraryState) (id : Int) : LibraryState :=
  { s with library := toggleFirstByID id s.library }

/-- Remove the first book whose `ID` matches (the loop with
`slices.Delete(library, i, i+1)` in `deleteBook`); no match leaves the list
unchanged. -/
def removeFirstByID (id : Int) : List Book → List Book
  | [] => []
  | b :: rest =>
    if b.ID == id then rest else b :: removeFirstByID id rest

/-- Embedding of `deleteBook` acting on the state. -/
def deleteBook (s : LibraryState) (id : Int) : LibraryState :=
  { s with library := removeFirstByID id s.library }

/-- The ID invariant of the Fiber service: the stored IDs are pairwise
distinct, `nextID` is strictly greater than every stored ID, and `nextID`
holds a valid 64-bit `int` value. -/
def LibInv (s : LibraryState) : Prop :=
  (s.library.map Book.ID).Nodup ∧
  (∀ x ∈ s.library.map Book.ID, x < s.nextID) ∧
  -9223372036854775808 ≤ s.nextID ∧ s.nextID < 9223372036854775808

instance (s : LibraryState) : Decidable (LibInv s) := by
  unfold LibInv
  infer_instance

/-- The library state at the 64-bit boundary: one stored book and the
counter at Go's maximum `int` value 9223372036854775807. -/
def overflowState : LibraryState :=
  ⟨[⟨0, "Seed", "Seed Author", "Technology", 1, true, 2000⟩], 9223372036854775807⟩

/-- A well-formed book submitted at the boundary state. -/
def overflowBook : Book :=
  ⟨0, "New Book", "New Author", "Technology", 1, true, 2001⟩

end FiberBooks

/-! ## Theorems about the two HTTP services -/

/-- The Gin todo filtering loop computes `List.filter` of the conjunction of
the provided filters. -/
theorem getTodosLoop_eq_filter (q s : String) (ts : List GinTodo.Todo) :
    GinTodo.getTodosLoop q s ts = ts.filter (GinTodo.todoMatches q s) := by
  induction ts with
  | nil => rfl
  | cons t rest ih =>
    cases hq : (q == "") <;> cases hc : containsIgnoreCase t.Item q <;>
      cases h1 : (s == "true") <;> cases h2 : (s == "false") <;>
      cases hC : t.Completed <;>
      simp_all [GinTodo.getTodosLoop, GinTodo.todoMatches, List.filter_cons, bne]

/-- The Fiber book filtering loop computes `List.filter` of the conjunction
of the provided filters. -/
theorem getAllBooksLoop_eq_filter (search genre availableStr : String)
    (bs : List FiberBooks.Book) :
    FiberBooks.getAllBooksLoop search genre availableStr bs
      = bs.filter (FiberBooks.bookMatchesAll search genre availableStr) := by
  induction bs with
  | nil => rfl
  | cons b rest ih =>
    cases hs : (search == "") <;> cases hm : FiberBooks.bookMatchesSearch b search <;>
      cases hg : (genre == "") <;> cases he : equalFold b.Genre genre <;>
      cases ha : (availableStr == "") <;> cases hv : b.Available <;>
      rcases hp : parseBool availableStr with _ | av <;> (try cases av) <;>
      simp_all [FiberBooks.getAllBooksLoop, FiberBooks.bookMatchesAll,
        List.filter_cons, bne]

/-- Claim C8: the todo and book list endpoints are pure linear-scan filters:
for every state of the store and every combination of filter parameters, the
handler returns the store unchanged together with exactly `List.filter` of
the conjunction of the provided filter predicates applied to the store; the
returned list is a subsequence of the store in stored order. -/
theorem c8_list_endpoints_are_pure_filters
    (query status search genre availableStr : String)
    (todos : List GinTodo.Todo) (books : List FiberBooks.Book) :
    GinTodo.getTodosHandler query status todos
      = (todos, todos.filter (GinTodo.todoMatches query status)) ∧
    (GinTodo.getTodosHandler query status todos).2.Sublist todos ∧
    FiberBooks.getAllBooksHandler search genre availableStr books
      = (books, books.filter (FiberBooks.bookMatchesAll search genre availableStr)) ∧
    (FiberBooks.getAllBooksHandler search genre availableStr books).2.Sublist books := by
  refine ⟨?_, ?_, ?_, ?_⟩
  · simp [GinTodo.getTodosHandler, getTodosLoop_eq_filter]
  · simp only [GinTodo.getTodosHandler, getTodosLoop_eq_filter]
    exact List.filter_sublist todos
  · simp [FiberBooks.getAllBooksHandler, getAllBooksLoop_eq_filter]
  · simp only [FiberBooks.getAllBooksHandler, getAllBooksLoop_eq_filter]
    exact List.filter_sublist books

/-- Toggling the same ID twice restores the store (helper, holds even when
the ID is absent, since then both passes are the identity). -/
theorem updateTodoStatus_involutive (id : String) (ts : List GinTodo.Todo) :
    GinTodo.updateTodoStatus id (GinTodo.updateTodoStatus id ts) = ts := by
  induction ts with
  | nil => rfl
  | cons t rest ih =>
    by_cases h : (t.ID == id) = true
    · simp [GinTodo.updateTodoStatus, GinTodo.toggleTodo, h]
    · simp [GinTodo.updateTodoStatus, h, ih]

/-- When the ID occurs in the store, one application of `updateTodoStatus`
replaces a single matching position with its toggle and leaves every other
position unchanged (helper). -/
theorem updateTodoStatus_set (id : String) (ts : List GinTodo.Todo)
    (h : id ∈ ts.map GinTodo.Todo.ID) :
    ∃ i, ∃ hi : i < ts.length,
      (ts.get ⟨i, hi⟩).ID = id ∧
      GinTodo.updateTodoStatus id ts = ts.set i (GinTodo.toggleTodo (ts.get ⟨i, hi⟩)) := by
  induction ts with
  | nil => simp at h
  | cons t rest ih =>
    by_cases ht : (t.ID == id) = true
    · refine ⟨0, by simp, ?_, ?_⟩
      · simpa using beq_iff_eq.mp ht
      · simp [GinTodo.updateTodoStatus, ht]
    · have hne : ¬ t.ID = id := fun he => ht (beq_iff_eq.mpr he)
      have hmem : id ∈ rest.map GinTodo.Todo.ID := by
        simp only [List.map_cons, List.mem_cons] at h
        rcases h with h1 | h1
        · exact absurd h1.symm hne
        · exact h1
      rcases ih hmem with ⟨i, hi, h1, h2⟩
      refine ⟨i + 1, by simpa using Nat.succ_lt_succ hi, by simpa using h1, ?_⟩
      simp [GinTodo.updateTodoStatus, ht, h2]

/-- Claim C10: in the Gin todo service, for every ID present in the store,
applying `updateTodoStatus` to that ID twice in succession restores the
store to exactly its original state; each application replaces one matching
todo with its toggle — which flips only the `Completed` field and keeps the
`ID` and `Item` — and leaves every other todo unchanged. -/
theorem c10_update_todo_status_twice_restores (id : String) (ts : List GinTodo.Todo)
    (h : id ∈ ts.map GinTodo.Todo.ID) :
    GinTodo.updateTodoStatus id (GinTodo.updateTodoStatus id ts) = ts ∧
    ∃ i, ∃ hi : i < ts.length,
      (ts.get ⟨i, hi⟩).ID = id ∧
      GinTodo.updateTodoStatus id ts = ts.set i (GinTodo.toggleTodo (ts.get ⟨i, hi⟩)) ∧
      (GinTodo.toggleTodo (ts.get ⟨i, hi⟩)).ID = (ts.get ⟨i, hi⟩).ID ∧
      (GinTodo.toggleTodo (ts.get ⟨i, hi⟩)).Item = (ts.get ⟨i, hi⟩).Item ∧
      (GinTodo.toggleTodo (ts.get ⟨i, hi⟩)).Completed = !(ts.get ⟨i, hi⟩).Completed := by
  refine ⟨updateTodoStatus_involutive id ts, ?_⟩
  rcases updateTodoStatus_set id ts h with ⟨i, hi, h1, h2⟩
  exact ⟨i, hi, h1, h2, rfl, rfl, rfl⟩

/-- Witness for claim C10: the hypothesis and conclusion at the concrete
store `TODOS` and the concrete ID 2. -/
theorem c10_update_todo_status_twice_restores_witness :
    ("2" ∈ GinTodo.TODOS.map GinTodo.Todo.ID) ∧
    (GinTodo.updateTodoStatus "2" (GinTodo.updateTodoStatus "2" GinTodo.TODOS)
        = GinTodo.TODOS ∧
     ∃ i, ∃ hi : i < GinTodo.TODOS.length,
       (GinTodo.TODOS.get ⟨i, hi⟩).ID = "2" ∧
       GinTodo.updateTodoStatus "2" GinTodo.TODOS
         = GinTodo.TODOS.set i (GinTodo.toggleTodo (GinTodo.TODOS.get ⟨i, hi⟩)) ∧
       (GinTodo.toggleTodo (GinTodo.TODOS.get ⟨i, hi⟩)).ID
         = (GinTodo.TODOS.get ⟨i, hi⟩).ID ∧
       (GinTodo.toggleTodo (GinTodo.TODOS.get ⟨i, hi⟩)).Item
         = (GinTodo.TODOS.get ⟨i, hi⟩).Item ∧
       (GinTodo.toggleTodo (GinTodo.TODOS.get ⟨i, hi⟩)).Completed
         = !(GinTodo.TODOS.get ⟨i, hi⟩).Completed) :=
  ⟨by decide, c10_update_todo_status_twice_restores "2" GinTodo.TODOS (by decide)⟩

/-- `setFirstByID` preserves the list of stored IDs (helper). -/
theorem setFirstByID_map_id (id : Int) (upd : FiberBooks.Book) (l : List FiberBooks.Book) :
    (FiberBooks.setFirstByID id upd l).map FiberBooks.Book.ID
      = l.map FiberBooks.Book.ID := by
  induction l with
  | nil => rfl
  | cons b rest ih =>
    by_cases h : (b.ID == id) = true
    · have : b.ID = id := beq_iff_eq.mp h
      simp [FiberBooks.setFirstByID, h, this]
    · simp [FiberBooks.setFirstByID, h, ih]

/-- `toggleFirstByID` preserves the list of stored IDs (helper). -/
theorem toggleFirstByID_map_id (id : Int) (l : List FiberBooks.Book) :
    (FiberBooks.toggleFirstByID id l).map FiberBooks.Book.ID
      = l.map FiberBooks.Book.ID := by
  induction l with
  | nil => rfl
  | cons b rest ih =>
    by_cases h : (b.ID == id) = true
    · simp [FiberBooks.toggleFirstByID, h]
    · simp [FiberBooks.toggleFirstByID, h, ih]

/-- `removeFirstByID` returns a sublist of its input (helper). -/
theorem removeFirstByID_sublist (id : Int) (l : List FiberBooks.Book) :
    (FiberBooks.removeFirstByID id l).Sublist l := by
  induction l with
  | nil => exact List.Sublist.refl _
  | cons b rest ih =>
    by_cases h : (b.ID == id) = true
    · simp only [FiberBooks.removeFirstByID, h, if_true]
      exact List.sublist_cons_self b rest
    · simpa [FiberBooks.removeFirstByID, h] using List.Sublist.cons₂ b ih

/-- `wrapInt64` is the identity on values already inside the 64-bit range
(helper). -/
theorem wrapInt64_eq_self (n : Int) (h1 : -9223372036854775808 ≤ n)
    (h2 : n < 9223372036854775808) : FiberBooks.wrapInt64 n = n := by
  simp only [FiberBooks.wrapInt64]
  omega

/-- `createBook` preserves the ID invariant as long as the counter has not
reached the maximum 64-bit `int` value, where `nextID++` would wrap
(helper). -/
theorem libInv_createBook (s : FiberBooks.LibraryState) (h : FiberBooks.LibInv s)
    (hno : s.nextID ≠ 9223372036854775807) (b : FiberBooks.Book) :
    FiberBooks.LibInv (FiberBooks.createBook s b) := by
  by_cases hr : (b.Title == "" || b.Author == "") = true
  · simpa [FiberBooks.createBook, hr] using h
  · rcases h with ⟨h1, h2, h3, h4⟩
    have hw : FiberBooks.wrapInt64 (s.nextID + 1) = s.nextID + 1 :=
      wrapInt64_eq_self (s.nextID + 1) (by omega) (by omega)
    refine ⟨?_, ?_, ?_, ?_⟩
    · simp only [FiberBooks.createBook, hr, if_false, Bool.false_eq_true,
        List.map_append, List.map_cons, List.map_nil]
      rw [List.nodup_append]
      refine ⟨h1, List.nodup_singleton _, ?_⟩
      intro x hx hx1
      have hlt := h2 x hx
      have : x = s.nextID := by simpa using hx1
      omega
    · intro x hx
      simp only [FiberBooks.createBook, hr, if_false, Bool.false_eq_true,
        List.map_append, List.map_cons, List.map_nil, List.mem_append,
        List.mem_singleton] at hx ⊢
      rw [hw]
      rcases hx with hx | hx
      · have := h2 x hx
        omega
      · omega
    · simp only [FiberBooks.createBook, hr, if_false, Bool.false_eq_true]
      rw [hw]
      omega
    · simp only [FiberBooks.createBook, hr, if_false, Bool.false_eq_true]
      rw [hw]
      omega

/-- `updateBook` preserves the ID invariant (helper). -/
theorem libInv_updateBook (s : FiberBooks.LibraryState) (h : FiberBooks.LibInv s)
    (id : Int) (upd : FiberBooks.Book) :
    FiberBooks.LibInv (FiberBooks.updateBook s id upd) := by
  rcases h with ⟨h1, h2, h3, h4⟩
  refine ⟨?_, ?_, h3, h4⟩
  · simpa [FiberBooks.updateBook, setFirstByID_map_id] using h1
  · intro x hx
    apply h2
    simpa [FiberBooks.updateBook, setFirstByID_map_id] using hx

/-- `toggleBookAvailability` preserves the ID invariant (helper). -/
theorem libInv_toggleBook (s : FiberBooks.LibraryState) (h : FiberBooks.LibInv s)
    (id : Int) : FiberBooks.LibInv (FiberBooks.toggleBookAvailability s id) := by
  rcases h with ⟨h1, h2, h3, h4⟩
  refine ⟨?_, ?_, h3, h4⟩
  · simpa [FiberBooks.toggleBookAvailability, toggleFirstByID_map_id] using h1
  · intro x hx
    apply h2
    simpa [FiberBooks.toggleBookAvailability, toggleFirstByID_map_id] using hx

/-- `deleteBook` preserves the ID invariant (helper). -/
theorem libInv_deleteBook (s : FiberBooks.LibraryState) (h : FiberBooks.LibInv s)
    (id : Int) : FiberBooks.LibInv (FiberBooks.deleteBook s id) := by
  rcases h with ⟨h1, h2, h3, h4⟩
  have hsub : ((FiberBooks.removeFirstByID id s.library).map FiberBooks.Book.ID).Sublist
      (s.library.map FiberBooks.Book.ID) :=
    (removeFirstByID_sublist id s.library).map FiberBooks.Book.ID
  exact ⟨h1.sublist hsub, fun x hx => h2 x (hsub.mem hx), h3, h4⟩

/-- Claim C9 (amended): in the Fiber book service, with `nextID` wrapping
as Go's 64-bit `int` does, the stored book IDs are pairwise distinct and
`nextID` is strictly greater than every stored ID; this holds initially,
is preserved unconditionally by `updateBook`, `deleteBook` and
`toggleBookAvailability`, and by `createBook` provided the counter has not
reached the maximum `int` value 9223372036854775807 — at that value the
increment wraps to the minimum `int` value and the greater-than-every-ID
guarantee fails (see the counterexample).  `createBook` ignores any
client-supplied ID and assigns the current `nextID` before incrementing
it, `updateBook` keeps the original ID of the updated entry, and
`deleteBook` only removes an entry. -/
theorem c9_fiber_book_ids_distinct (s : FiberBooks.LibraryState)
    (h : FiberBooks.LibInv s) (b upd : FiberBooks.Book) (id : Int) :
    FiberBooks.LibInv FiberBooks.initialState ∧
    (s.nextID ≠ 9223372036854775807 →
      FiberBooks.LibInv (FiberBooks.createBook s b)) ∧
    FiberBooks.LibInv (FiberBooks.updateBook s id upd) ∧
    FiberBooks.LibInv (FiberBooks.deleteBook s id) ∧
    FiberBooks.LibInv (FiberBooks.toggleBookAvailability s id) ∧
    ((b.Title == "" || b.Author == "") = false →
      (FiberBooks.createBook s b).library.map FiberBooks.Book.ID
          = s.library.map FiberBooks.Book.ID ++ [s.nextID] ∧
      (FiberBooks.createBook s b).nextID = FiberBooks.wrapInt64 (s.nextID + 1) ∧
      (s.nextID ≠ 9223372036854775807 →
        (FiberBooks.createBook s b).nextID = s.nextID + 1)) ∧
    (FiberBooks.updateBook s id upd).library.map FiberBooks.Book.ID
        = s.library.map FiberBooks.Book.ID ∧
    (FiberBooks.deleteBook s id).library.Sublist s.library := by
  refine ⟨by decide, fun hno => libInv_createBook s h hno b,
    libInv_updateBook s h id upd, libInv_deleteBook s h id,
    libInv_toggleBook s h id, ?_, ?_, ?_⟩
  · intro hr
    refine ⟨?_, ?_, ?_⟩
    · simp [FiberBooks.createBook, hr]
    · simp [FiberBooks.createBook, hr]
    · intro hno
      rcases h with ⟨h1, h2, h3, h4⟩
      simp only [FiberBooks.createBook, hr, if_false, Bool.false_eq_true]
      exact wrapInt64_eq_self (s.nextID + 1) (by omega) (by omega)
  · exact setFirstByID_map_id id upd s.library
  · exact removeFirstByID_sublist id s.library

/-- Witness for claim C9: the invariant holds at the initial library state,
and the theorem applies there with a concrete book and ID. -/
theorem c9_fiber_book_ids_distinct_witness :
    FiberBooks.LibInv FiberBooks.initialState ∧
    (FiberBooks.LibInv FiberBooks.initialState ∧
     (FiberBooks.initialState.nextID ≠ 9223372036854775807 →
       FiberBooks.LibInv
         (FiberBooks.createBook FiberBooks.initialState
           ⟨99, "Extra", "Someone", "Technology", 100, true, 2020⟩)) ∧
     FiberBooks.LibInv
       (FiberBooks.updateBook FiberBooks.initialState 2
         ⟨77, "New Title", "New Author", "Fiction", 200, false, 2021⟩) ∧
     FiberBooks.LibInv (FiberBooks.deleteBook FiberBooks.initialState 2) ∧
     FiberBooks.LibInv
       (FiberBooks.toggleBookAvailability FiberBooks.initialState 2) ∧
     ((FiberBooks.Book.Title ⟨99, "Extra", "Someone", "Technology", 100, true, 2020⟩ == ""
        || FiberBooks.Book.Author ⟨99, "Extra", "Someone", "Technology", 100, true, 2020⟩ == "")
          = false →
       (FiberBooks.createBook FiberBooks.initialState
           ⟨99, "Extra", "Someone", "Technology", 100, true, 2020⟩).library.map
           FiberBooks.Book.ID
         = FiberBooks.initialState.library.map FiberBooks.Book.ID
             ++ [FiberBooks.initialState.nextID] ∧
       (FiberBooks.createBook FiberBooks.initialState
           ⟨99, "Extra", "Someone", "Technology", 100, true, 2020⟩).nextID
         = FiberBooks.wrapInt64 (FiberBooks.initialState.nextID + 1) ∧
       (FiberBooks.initialState.nextID ≠ 9223372036854775807 →
         (FiberBooks.createBook FiberBooks.initialState
             ⟨99, "Extra", "Someone", "Technology", 100, true, 2020⟩).nextID
           = FiberBooks.initialState.nextID + 1)) ∧
     (FiberBooks.updateBook FiberBooks.initialState 2
         ⟨77, "New Title", "New Author", "Fiction", 200, false, 2021⟩).library.map
         FiberBooks.Book.ID
       = FiberBooks.initialState.library.map FiberBooks.Book.ID ∧
     (FiberBooks.deleteBook FiberBooks.initialState 2).library.Sublist
       FiberBooks.initialState.library) :=
  ⟨by decide,
   c9_fiber_book_ids_distinct FiberBooks.initialState (by decide)
     ⟨99, "Extra", "Someone", "Technology", 100, true, 2020⟩
     ⟨77, "New Title", "New Author", "Fiction", 200, false, 2021⟩ 2⟩

/-- Counterexample for claim C9 as originally stated: at the library state
whose counter holds Go's maximum `int` value — a state the original
unconditional preservation claim must cover — `createBook` wraps `nextID`
to the minimum `int` value, so the new counter is not strictly greater
than every stored ID and the invariant the claim asserts is not
preserved. -/
theorem c9_fiber_book_ids_distinct_counterexample :
    FiberBooks.LibInv FiberBooks.overflowState ∧
    (FiberBooks.Book.Title FiberBooks.overflowBook == ""
      || FiberBooks.Book.Author FiberBooks.overflowBook == "") = false ∧
    (FiberBooks.createBook FiberBooks.overflowState FiberBooks.overflowBook).nextID
      = -9223372036854775808 ∧
    ¬ (∀ x ∈ (FiberBooks.createBook FiberBooks.overflowState
          FiberBooks.overflowBook).library.map FiberBooks.Book.ID,
        x < (FiberBooks.createBook FiberBooks.overflowState
          FiberBooks.overflowBook).nextID) ∧
    ¬ FiberBooks.LibInv
        (FiberBooks.createBook FiberBooks.overflowState FiberBooks.overflowBook) := by
  decide

/-! ## The bounded worker pool core

The specification's central component — Task, Result, WorkerPool,
FanInCollector, Orchestrator — has no implementation in the repository
(the spec explicitly reconstructs it from the articles' sketches), so it
is modelled here from the specification's words.  The model sequentializes
the concurrent execution into a deterministic discrete-time simulation:
one `tick` is one abstract time unit, at most `capacity` tasks are
in flight during a tick, and a task of duration `d` occupies a worker for
`d` ticks. -/

namespace PoolSpec

/-- Modelled from the spec: a `Task` is a unit of work — a unique id, an
input payload, and a pure computation from the payload to a value or a
failure (no WorkerPool implementation exists in the repository).  The
`duration` field is the task's execution time in abstract time units,
used by the timeout model. -/
structure Task where
  id : Nat
  payload : Int
  compute : Int → Except String Int
  duration : Nat

/-- Modelled from the spec: the tag of a failure `Result` — either the
task's own compute failed (`taskFailure`) or the task was abandoned by
`cancelAll` (`cancelled`). -/
inductive TaskError where
  | taskFailure (msg : String)
  | cancelled
deriving DecidableEq, Repr

/-- Modelled from the spec: a `Result` outcome is a produced value or a
failure indicator. -/
inductive Outcome where
  | success (v : Int)
  | failure (e : TaskError)
deriving DecidableEq, Repr

/-- Modelled from the spec: a `Result` is the outcome of a task, tagged
with the originating task's identity. -/
structure Result where
  taskID : Nat
  outcome : Outcome
deriving DecidableEq, Repr

/-- Modelled from the spec: guarded execution of one task by a worker — a
failure inside `compute` is converted to a `taskFailure` Result rather
than crashing the worker loop. -/
def execTask (t : Task) : Result :=
  match t.compute t.payload with
  | .ok v => ⟨t.id, .success v⟩
  | .error msg => ⟨t.id, .failure (.taskFailure msg)⟩

/-- Modelled from the spec: a claimed task together with its remaining
execution time. -/
structure RunningTask where
  task : Task
  remaining : Nat

/-- Modelled from the spec: the state of one batch run — tasks not yet
claimed (the intake queue), tasks currently executing, and the results
observed so far by the collector (in completion order). -/
structure SimState where
  pending : List Task
  running : List RunningTask
  done : List Result

/-- Modelled from the spec: idle workers claim tasks from the intake queue
until every worker is busy or the queue is empty; at most `cap` tasks are
ever in flight. -/
def fill (cap : Nat) (running : List RunningTask) :
    List Task → List RunningTask × List Task
  | [] => (running, [])
  | t :: rest =>
    if running.length < cap then fill cap (running ++ [⟨t, t.duration⟩]) rest
    else (running, t :: rest)

/-- Modelled from the spec: one abstract time unit of the pool — idle
workers claim queued tasks, every in-flight task advances by one unit, and
tasks whose time is up push their Result to the collector. -/
def tick (cap : Nat) (s : SimState) : SimState :=
  let filled := fill cap s.running s.pending
  let stepped := filled.1.map fun r => RunningTask.mk r.task (r.remaining - 1)
  let fin := stepped.filter fun r => r.remaining == 0
  let still := stepped.filter fun r => r.remaining != 0
  ⟨filled.2, still, s.done ++ fin.map fun r => execTask r.task⟩

/-- Modelled from the spec: the effect of `cancelAll()` on a batch —
queued-but-unstarted tasks are discarded and never executed (they yield no
Result), while in-flight tasks are abandoned with a `cancelled` failure
Result. -/
def cancelSim (s : SimState) : SimState :=
  ⟨[], [], s.done ++ s.running.map fun r => Result.mk r.task.id (.failure .cancelled)⟩

/-- Modelled from the spec: the orchestrator's collection loop — between
ticks it checks whether `need` Results have been observed; when the
timeout budget is exhausted first, it fires `cancelAll` and returns with
whatever Results had arrived.  Returns the final state, the number of
time units elapsed, and the timed-out flag. -/
def runSim (cap need : Nat) : Nat → SimState → SimState × Nat × Bool
  | 0, s =>
    if s.done.length == need then (s, 0, false) else (cancelSim s, 0, true)
  | fuel + 1, s =>
    if s.done.length == need then (s, 0, false)
    else
      let out := runSim cap need fuel (tick cap s)
      (out.1, out.2.1 + 1, out.2.2)

/-- Modelled from the spec: the sequence of states the batch run passes
through (the instrumented view used to observe the concurrency level);
mirrors the recursion of `runSim` before any cancellation. -/
def simTrace (cap need : Nat) : Nat → SimState → List SimState
  | 0, s => [s]
  | fuel + 1, s =>
    if s.done.length == need then [s]
    else s :: simTrace cap need fuel (tick cap s)

/-- Modelled from the spec: the observable outcome of `runBatch` — the
collected Results, the timed-out flag, whether `cancelAll()` was invoked
before returning, the wall-clock time consumed, and how many workers were
started. -/
structure BatchOutcome where
  results : List Result
  timedOut : Bool
  cancelInvoked : Bool
  elapsed : Nat
  workersStarted : Nat

/-- Modelled from the spec: `runBatch(tasks, timeout)` — submit all tasks
to a freshly started pool of `cap` workers (an empty batch starts none),
collect Results until all have arrived or `timeout` time units elapse, and
on timeout invoke `cancelAll()` before returning. -/
def runBatch (cap : Nat) (tasks : List Task) (timeout : Nat) : BatchOutcome :=
  let out := runSim cap tasks.length timeout ⟨tasks, [], []⟩
  { results := out.1.done
    timedOut := out.2.2
    cancelInvoked := out.2.2
    elapsed := out.2.1
    workersStarted := if tasks.isEmpty then 0 else cap }

/-- Modelled from the spec: the pool lifecycle states
`Created → Running → Draining → Stopped`. -/
inductive Lifecycle where
  | created
  | running
  | draining
  | stopped
deriving DecidableEq, Repr

/-- Modelled from the spec: the WorkerPool state — fixed capacity, current
lifecycle state, intake queue of pending tasks, and outtake queue of
pending results. -/
structure Pool where
  capacity : Nat
  lifecycle : Lifecycle
  intake : List Task
  outtake : List Result

/-- Modelled from the spec: the error returned by `submit` after
drain/stop. -/
inductive SubmitError where
  | poolClosed
deriving DecidableEq, Repr

/-- Modelled from the spec: `submit(task)` enqueues a Task; it succeeds if
the pool is Running and fails with `PoolClosed` otherwise. -/
def submit (p : Pool) (t : Task) : Except SubmitError Pool :=
  match p.lifecycle with
  | .running => .ok { p with intake := p.intake ++ [t] }
  | _ => .error .poolClosed

/-- Modelled from the spec: `drain()` — stop accepting new submissions, let
the already-queued tasks finish (their Results flow to the outtake queue),
then transition to Stopped; on an already-Stopped pool it does nothing. -/
def drain (p : Pool) : Pool :=
  if p.lifecycle = .stopped then p
  else
    { p with
      lifecycle := .stopped
      intake := []
      outtake := p.outtake ++ p.intake.map execTask }

/-- Modelled from the spec: a small concrete batch used to instantiate the
pool theorems — two succeeding tasks and one whose compute fails. -/
def failingTask : Task :=
  ⟨2, 20, fun _ => .error ("boom"), 1⟩

/-- Modelled from the spec: a concrete three-task batch. -/
def demoTasks : List Task :=
  [⟨1, 10, fun x => .ok (x * x), 1⟩,
   failingTask,
   ⟨3, 30, fun x => .ok (x + 1), 2⟩]

end PoolSpec

/-! ## Theorems about the worker pool core -/

/-- Claim C6: `drain()` is idempotent — on every reachable pool state
(Stopped states are reached only with an emptied intake), calling `drain`
twice leaves the pool in the same state as calling it once; after `drain`
the pool is Stopped, its intake has been run to completion, and new
submissions fail with `PoolClosed`. -/
theorem c6_drain_idempotent (p : PoolSpec.Pool)
    (hreach : p.lifecycle = PoolSpec.Lifecycle.stopped → p.intake = []) :
    PoolSpec.drain (PoolSpec.drain p) = PoolSpec.drain p ∧
    (PoolSpec.drain p).lifecycle = PoolSpec.Lifecycle.stopped ∧
    (PoolSpec.drain p).intake = [] ∧
    ∀ t, PoolSpec.submit (PoolSpec.drain p) t
        = Except.error PoolSpec.SubmitError.poolClosed := by
  by_cases h : p.lifecycle = PoolSpec.Lifecycle.stopped
  · refine ⟨?_, ?_, ?_, ?_⟩
    · simp [PoolSpec.drain, h]
    · simp [PoolSpec.drain, h]
    · simp [PoolSpec.drain, h, hreach h]
    · intro t
      simp [PoolSpec.drain, PoolSpec.submit, h]
  · refine ⟨?_, ?_, ?_, ?_⟩
    · simp [PoolSpec.drain, h]
    · simp [PoolSpec.drain, h]
    · simp [PoolSpec.drain, h]
    · intro t
      simp [PoolSpec.drain, PoolSpec.submit, h]

/-- Witness for claim C6: the theorem applied to a concrete running pool
holding one queued task. -/
theorem c6_drain_idempotent_witness :
    ((PoolSpec.Pool.mk 2 PoolSpec.Lifecycle.running [PoolSpec.failingTask] []).lifecycle
        = PoolSpec.Lifecycle.stopped →
      (PoolSpec.Pool.mk 2 PoolSpec.Lifecycle.running [PoolSpec.failingTask] []).intake = []) ∧
    (PoolSpec.drain (PoolSpec.drain
        (PoolSpec.Pool.mk 2 PoolSpec.Lifecycle.running [PoolSpec.failingTask] []))
      = PoolSpec.drain
        (PoolSpec.Pool.mk 2 PoolSpec.Lifecycle.running [PoolSpec.failingTask] []) ∧
     (PoolSpec.drain
        (PoolSpec.Pool.mk 2 PoolSpec.Lifecycle.running [PoolSpec.failingTask] [])).lifecycle
      = PoolSpec.Lifecycle.stopped ∧
     (PoolSpec.drain
        (PoolSpec.Pool.mk 2 PoolSpec.Lifecycle.running [PoolSpec.failingTask] [])).intake
      = [] ∧
     ∀ t, PoolSpec.submit (PoolSpec.drain
        (PoolSpec.Pool.mk 2 PoolSpec.Lifecycle.running [PoolSpec.failingTask] [])) t
      = Except.error PoolSpec.SubmitError.poolClosed) :=
  ⟨fun h => absurd h (by simp),
   c6_drain_idempotent (PoolSpec.Pool.mk 2 PoolSpec.Lifecycle.running [PoolSpec.failingTask] [])
     (fun h => absurd h (by simp))⟩

/-- Claim C7: `runBatch` on an empty task sequence returns immediately
(zero time units elapsed) with an empty result set, `timedOut = false`, no
cancellation, and no worker started — for every timeout value and every
capacity. -/
theorem c7_empty_batch (cap timeout : Nat) :
    PoolSpec.runBatch cap [] timeout
      = ⟨[], false, false, 0, 0⟩ := by
  cases timeout <;> simp [PoolSpec.runBatch, PoolSpec.runSim]

/-- Claiming tasks never pushes the number of in-flight tasks above the
capacity (helper). -/
theorem fill_length_le (cap : Nat) (running : List PoolSpec.RunningTask)
    (pending : List PoolSpec.Task) (h : running.length ≤ cap) :
    (PoolSpec.fill cap running pending).1.length ≤ cap := by
  induction pending generalizing running with
  | nil => simpa [PoolSpec.fill] using h
  | cons t rest ih =>
    by_cases hlt : running.length < cap
    · simp only [PoolSpec.fill, hlt, if_true]
      exact ih _ (by simp; omega)
    · simpa [PoolSpec.fill, hlt] using h

/-- One time unit of the pool preserves the capacity bound (helper). -/
theorem tick_running_le (cap : Nat) (s : PoolSpec.SimState)
    (h : s.running.length ≤ cap) :
    (PoolSpec.tick cap s).running.length ≤ cap := by
  have h1 := fill_length_le cap s.running s.pending h
  simp only [PoolSpec.tick]
  calc (((PoolSpec.fill cap s.running s.pending).1.map fun r =>
          PoolSpec.RunningTask.mk r.task (r.remaining - 1)).filter
            fun r => r.remaining != 0).length
      ≤ ((PoolSpec.fill cap s.running s.pending).1.map fun r =>
          PoolSpec.RunningTask.mk r.task (r.remaining - 1)).length :=
        List.length_filter_le _ _
    _ = (PoolSpec.fill cap s.running s.pending).1.length := List.length_map _ _
    _ ≤ cap := h1

/-- Every state the batch run passes through satisfies the capacity bound
when the starting state does (helper). -/
theorem simTrace_running_le (cap need fuel : Nat) (s0 : PoolSpec.SimState)
    (h : s0.running.length ≤ cap) :
    ∀ s ∈ PoolSpec.simTrace cap need fuel s0, s.running.length ≤ cap := by
  induction fuel generalizing s0 with
  | zero =>
    intro s hs
    simp only [PoolSpec.simTrace, List.mem_singleton] at hs
    exact hs ▸ h
  | succ n ih =>
    intro s hs
    by_cases hd : (s0.done.length == need) = true
    · simp only [PoolSpec.simTrace] at hs
      rw [if_pos hd] at hs
      simp only [List.mem_singleton] at hs
      exact hs ▸ h
    · simp only [PoolSpec.simTrace] at hs
      rw [if_neg hd] at hs
      rcases List.mem_cons.mp hs with h1 | h1
      · exact h1 ▸ h
      · exact ih (PoolSpec.tick cap s0) (tick_running_le cap s0 h) s h1

/-- Claim C2: for every capacity C ≥ 1 and every batch of submitted tasks,
the number of tasks executing concurrently never exceeds C at any point of
the run: every state passed through by the batch simulation keeps at most
C tasks in flight. -/
theorem c2_capacity_never_exceeded (cap : Nat) (hcap : 1 ≤ cap)
    (tasks : List PoolSpec.Task) (timeout : Nat) :
    ∀ s ∈ PoolSpec.simTrace cap tasks.length timeout
        (PoolSpec.SimState.mk tasks [] []),
      s.running.length ≤ cap :=
  simTrace_running_le cap tasks.length timeout _ (by simp)

/-- Witness for claim C2: capacity 1 with the three-task demo batch and a
generous timeout. -/
theorem c2_capacity_never_exceeded_witness :
    1 ≤ 1 ∧
    ∀ s ∈ PoolSpec.simTrace 1 PoolSpec.demoTasks.length 10
        (PoolSpec.SimState.mk PoolSpec.demoTasks [] []),
      s.running.length ≤ 1 :=
  ⟨Nat.le_refl 1, c2_capacity_never_exceeded 1 (Nat.le_refl 1) PoolSpec.demoTasks 10⟩


namespace PoolSpec

/-- Modelled from the spec: the accounting multiset of a batch state — the
Results already collected together with the Results the remaining
(in-flight and queued) tasks will produce; used to prove that no Result is
dropped or duplicated. -/
def resultsBag (s : SimState) : Multiset Result :=
  (s.done : Multiset Result)
    + ((s.running.map fun r => execTask r.task : List Result) : Multiset Result)
    + ((s.pending.map execTask : List Result) : Multiset Result)

/-- A worker's guarded execution tags the Result with the originating
task's id (helper). -/
theorem execTask_taskID (t : Task) : (execTask t).taskID = t.id := by
  simp only [execTask]
  split <;> rfl

/-- A worker's guarded execution never produces a `cancelled` Result
(helper). -/
theorem execTask_not_cancelled (t : Task) :
    (execTask t).outcome ≠ Outcome.failure TaskError.cancelled := by
  simp only [execTask]
  split <;> simp

/-- `fill` moves a prefix of the intake queue onto the workers and leaves
the rest queued (helper). -/
theorem fill_spec (cap : Nat) (running : List RunningTask)
    (pending : List Task) :
    ∃ claimed : List Task,
      (fill cap running pending).1
        = running ++ claimed.map (fun t => RunningTask.mk t t.duration) ∧
      pending = claimed ++ (fill cap running pending).2 := by
  induction pending generalizing running with
  | nil => exact ⟨[], by simp [fill], by simp [fill]⟩
  | cons t rest ih =>
    by_cases hlt : running.length < cap
    · rcases ih (running ++ [⟨t, t.duration⟩]) with ⟨c, h1, h2⟩
      refine ⟨t :: c, ?_, ?_⟩
      · simp only [fill]
        rw [if_pos hlt, h1]
        simp
      · simp only [fill]
        rw [if_pos hlt]
        simpa using h2
    · exact ⟨[], by simp [fill, hlt], by simp [fill, hlt]⟩

/-- One time unit conserves the accounting multiset: a task claimed from
the queue carries its future Result with it, and a finished task
contributes exactly its Result to the collector (helper). -/
theorem tick_resultsBag (cap : Nat) (s : SimState) :
    resultsBag (tick cap s) = resultsBag s := by
  rcases fill_spec cap s.running s.pending with ⟨claimed, h1, h2⟩
  have hfs : ((((fill cap s.running s.pending).1.map fun r =>
        RunningTask.mk r.task (r.remaining - 1)).filter
          (fun r => r.remaining == 0)).map (fun r => execTask r.task)
      ++ (((fill cap s.running s.pending).1.map fun r =>
        RunningTask.mk r.task (r.remaining - 1)).filter
          (fun r => r.remaining != 0)).map (fun r => execTask r.task)).Perm
      (((fill cap s.running s.pending).1.map fun r =>
        RunningTask.mk r.task (r.remaining - 1)).map
          (fun r => execTask r.task)) := by
    have hp := (List.filter_append_perm
      (fun r : RunningTask => r.remaining == 0)
      ((fill cap s.running s.pending).1.map fun r =>
        RunningTask.mk r.task (r.remaining - 1))).map
      (fun r => execTask r.task)
    rw [List.map_append] at hp
    simpa [bne] using hp
  rw [h1] at hfs
  have hstep : (((s.running ++ claimed.map fun t => RunningTask.mk t t.duration).map fun r =>
        RunningTask.mk r.task (r.remaining - 1)).map fun r => execTask r.task)
      = (s.running.map fun r => execTask r.task) ++ claimed.map execTask := by
    simp only [List.map_map, List.map_append]
    rfl
  rw [hstep] at hfs
  simp only [resultsBag, tick]
  rw [h1]
  conv_rhs => rw [h2]
  simp only [Multiset.coe_add]
  rw [Multiset.coe_eq_coe]
  have hfin := (hfs.append_right
    (List.map execTask (fill cap s.running s.pending).2)).append_left s.done
  simp only [List.append_assoc] at hfin ⊢
  simpa [List.map_append] using hfin

/-- The orchestrator never waits longer than its time budget (helper). -/
theorem runSim_elapsed_le (cap need fuel : Nat) (s : SimState) :
    (runSim cap need fuel s).2.1 ≤ fuel := by
  induction fuel generalizing s with
  | zero =>
    simp only [runSim]
    split <;> simp
  | succ n ih =>
    simp only [runSim]
    split
    · simp
    · simpa using Nat.succ_le_succ (ih (tick cap s))

/-- A run that does not time out ends with exactly `need` collected Results
and conserves the accounting multiset (helper). -/
theorem runSim_no_timeout (cap need fuel : Nat) (s : SimState)
    (h : (runSim cap need fuel s).2.2 = false) :
    (runSim cap need fuel s).1.done.length = need ∧
    resultsBag (runSim cap need fuel s).1 = resultsBag s := by
  induction fuel generalizing s with
  | zero =>
    by_cases hd : (s.done.length == need) = true
    · simp only [runSim]
      rw [if_pos hd]
      exact ⟨by simpa using beq_iff_eq.mp hd, rfl⟩
    · exfalso
      simp only [runSim] at h
      rw [if_neg hd] at h
      simp at h
  | succ n ih =>
    by_cases hd : (s.done.length == need) = true
    · simp only [runSim]
      rw [if_pos hd]
      exact ⟨by simpa using beq_iff_eq.mp hd, rfl⟩
    · simp only [runSim] at h ⊢
      rw [if_neg hd] at h ⊢
      simp only at h ⊢
      rcases ih (tick cap s) h with ⟨ha, hb⟩
      exact ⟨ha, hb.trans (tick_resultsBag cap s)⟩

/-- A batch that does not time out collects exactly the Results of the
guarded execution of its tasks, as a multiset (helper). -/
theorem runBatch_done_perm (cap timeout : Nat) (tasks : List Task)
    (hto : (runBatch cap tasks timeout).timedOut = false) :
    (runBatch cap tasks timeout).results.Perm (tasks.map execTask) := by
  have h2 : (runSim cap tasks.length timeout ⟨tasks, [], []⟩).2.2 = false := hto
  rcases runSim_no_timeout cap tasks.length timeout ⟨tasks, [], []⟩ h2 with ⟨hlen, hbag⟩
  have hinit : resultsBag ⟨tasks, [], []⟩
      = ((tasks.map execTask : List Result) : Multiset Result) := by
    simp [resultsBag]
  rw [hinit] at hbag
  have hcard := congrArg Multiset.card hbag
  simp only [resultsBag, Multiset.card_add, Multiset.coe_card, List.length_map] at hcard
  have hrun : (runSim cap tasks.length timeout ⟨tasks, [], []⟩).1.running = [] := by
    rw [← List.length_eq_zero]
    omega
  have hpend : (runSim cap tasks.length timeout ⟨tasks, [], []⟩).1.pending = [] := by
    rw [← List.length_eq_zero]
    omega
  have hfin : resultsBag (runSim cap tasks.length timeout ⟨tasks, [], []⟩).1
      = ((runSim cap tasks.length timeout ⟨tasks, [], []⟩).1.done : Multiset Result) := by
    simp [resultsBag, hrun, hpend]
  rw [hfin] at hbag
  exact Multiset.coe_eq_coe.mp hbag

/-- The state `runSim` returns is a state of `simTrace` (or that state
after `cancelAll` fires on timeout): the trace used to observe the
concurrency level covers the whole run (helper). -/
theorem runSim_state_from_trace (cap need fuel : Nat) (s : SimState) :
    ∃ s2 ∈ simTrace cap need fuel s,
      (runSim cap need fuel s).1 = s2 ∨ (runSim cap need fuel s).1 = cancelSim s2 := by
  induction fuel generalizing s with
  | zero =>
    by_cases hd : (s.done.length == need) = true
    · refine ⟨s, by simp [simTrace], Or.inl ?_⟩
      simp only [runSim]
      rw [if_pos hd]
    · refine ⟨s, by simp [simTrace], Or.inr ?_⟩
      simp only [runSim]
      rw [if_neg hd]
  | succ n ih =>
    by_cases hd : (s.done.length == need) = true
    · refine ⟨s, ?_, Or.inl ?_⟩
      · simp only [simTrace]
        rw [if_pos hd]
        simp
      · simp only [runSim]
        rw [if_pos hd]
    · rcases ih (tick cap s) with ⟨s2, hmem, hor⟩
      refine ⟨s2, ?_, ?_⟩
      · simp only [simTrace]
        rw [if_neg hd]
        exact List.mem_cons_of_mem s hmem
      · simp only [runSim]
        rw [if_neg hd]
        simpa using hor

/-- Claim C1: for every batch of N submitted tasks with distinct task ids,
if no cancellation occurs (the run does not time out), exactly N Results
are observed by the collector, their taskIDs are a permutation of the
submitted ids (each Result matches one submitted Task, none dropped) and
pairwise distinct (none delivered twice). -/
theorem c1_batch_results_complete (cap timeout : Nat) (tasks : List Task)
    (hn : (tasks.map Task.id).Nodup)
    (hto : (runBatch cap tasks timeout).timedOut = false) :
    (runBatch cap tasks timeout).results.length = tasks.length ∧
    ((runBatch cap tasks timeout).results.map Result.taskID).Perm
      (tasks.map Task.id) ∧
    ((runBatch cap tasks timeout).results.map Result.taskID).Nodup := by
  have hperm := runBatch_done_perm cap timeout tasks hto
  have hids : (tasks.map execTask).map Result.taskID = tasks.map Task.id := by
    simp [List.map_map, Function.comp, execTask_taskID]
  have hm2 : ((runBatch cap tasks timeout).results.map Result.taskID).Perm
      (tasks.map Task.id) := hids ▸ hperm.map Result.taskID
  refine ⟨?_, hm2, hm2.nodup_iff.mpr hn⟩
  have := hperm.length_eq
  simpa using this

/-- Witness for claim C1: the demo batch with capacity 2 and a generous
timeout. -/
theorem c1_batch_results_complete_witness :
    ((demoTasks.map Task.id).Nodup ∧
     (runBatch 2 demoTasks 10).timedOut = false) ∧
    ((runBatch 2 demoTasks 10).results.length = demoTasks.length ∧
     ((runBatch 2 demoTasks 10).results.map Result.taskID).Perm
       (demoTasks.map Task.id) ∧
     ((runBatch 2 demoTasks 10).results.map Result.taskID).Nodup) :=
  ⟨⟨by decide, by rfl⟩,
   c1_batch_results_complete 2 10 demoTasks (by decide) (by rfl)⟩

/-- Claim C5: a task whose compute fails yields a failure Result tagged
`taskFailure` (never `cancelled`), the worker survives (no Result of any
task is lost), and every sibling task in a batch that does not time out
still completes with its own Result. -/
theorem c5_failure_isolation (cap timeout : Nat) (tasks : List Task)
    (t : Task) (ht : t ∈ tasks) (msg : String)
    (hf : t.compute t.payload = Except.error msg)
    (hto : (runBatch cap tasks timeout).timedOut = false) :
    Result.mk t.id (Outcome.failure (TaskError.taskFailure msg))
      ∈ (runBatch cap tasks timeout).results ∧
    (∀ r ∈ (runBatch cap tasks timeout).results,
      r.outcome ≠ Outcome.failure TaskError.cancelled) ∧
    ∀ t2 ∈ tasks, ∃ r ∈ (runBatch cap tasks timeout).results, r.taskID = t2.id := by
  have hperm := runBatch_done_perm cap timeout tasks hto
  refine ⟨?_, ?_, ?_⟩
  · have hmem : execTask t ∈ tasks.map execTask := List.mem_map_of_mem _ ht
    have he : execTask t = ⟨t.id, .failure (.taskFailure msg)⟩ := by
      simp [execTask, hf]
    rw [← he]
    exact hperm.mem_iff.mpr hmem
  · intro r hr
    rcases List.mem_map.mp (hperm.mem_iff.mp hr) with ⟨t2, _, rfl⟩
    exact execTask_not_cancelled t2
  · intro t2 ht2
    exact ⟨execTask t2, hperm.mem_iff.mpr (List.mem_map_of_mem _ ht2),
      execTask_taskID t2⟩

/-- Witness for claim C5: the demo batch, whose second task fails. -/
theorem c5_failure_isolation_witness :
    (failingTask ∈ demoTasks ∧
     failingTask.compute failingTask.payload = Except.error ("boom") ∧
     (runBatch 2 demoTasks 10).timedOut = false) ∧
    (Result.mk failingTask.id (Outcome.failure (TaskError.taskFailure ("boom")))
        ∈ (runBatch 2 demoTasks 10).results ∧
     (∀ r ∈ (runBatch 2 demoTasks 10).results,
        r.outcome ≠ Outcome.failure TaskError.cancelled) ∧
     ∀ t2 ∈ demoTasks, ∃ r ∈ (runBatch 2 demoTasks 10).results,
        r.taskID = t2.id) :=
  ⟨⟨List.Mem.tail _ (List.Mem.head _), rfl, rfl⟩,
   c5_failure_isolation 2 10 demoTasks failingTask
     (List.Mem.tail _ (List.Mem.head _)) "boom" rfl rfl⟩

/-- Claim C3: for every non-empty batch and every timeout, if the timeout
elapses before all results arrive (the returned result set is partial)
then `runBatch` reports `timedOut = true` and has invoked `cancelAll()`
before returning; `timedOut` always implies the cancellation was invoked;
and the elapsed time never exceeds the configured timeout (the caller is
never blocked past it). -/
theorem c3_timeout_returns_partial (cap timeout : Nat) (tasks : List Task)
    (hne : tasks ≠ []) :
    ((runBatch cap tasks timeout).results.length < tasks.length →
      (runBatch cap tasks timeout).timedOut = true ∧
      (runBatch cap tasks timeout).cancelInvoked = true) ∧
    ((runBatch cap tasks timeout).timedOut = true →
      (runBatch cap tasks timeout).cancelInvoked = true) ∧
    (runBatch cap tasks timeout).elapsed ≤ timeout := by
  have hci : (runBatch cap tasks timeout).cancelInvoked
      = (runBatch cap tasks timeout).timedOut := rfl
  refine ⟨?_, ?_, ?_⟩
  · intro hlt
    cases hcase : (runBatch cap tasks timeout).timedOut with
    | false =>
      exfalso
      have h2 : (runSim cap tasks.length timeout ⟨tasks, [], []⟩).2.2 = false := hcase
      have hfull : (runBatch cap tasks timeout).results.length = tasks.length :=
        (runSim_no_timeout cap tasks.length timeout ⟨tasks, [], []⟩ h2).1
      omega
    | true => exact ⟨rfl, hci.trans hcase⟩
  · intro h
    exact hci.trans h
  · exact runSim_elapsed_le cap tasks.length timeout ⟨tasks, [], []⟩

/-- Witness for claim C3: the demo batch with one worker and a timeout of
2 time units. -/
theorem c3_timeout_returns_partial_witness :
    demoTasks ≠ [] ∧
    (((runBatch 1 demoTasks 2).results.length < demoTasks.length →
        (runBatch 1 demoTasks 2).timedOut = true ∧
        (runBatch 1 demoTasks 2).cancelInvoked = true) ∧
     ((runBatch 1 demoTasks 2).timedOut = true →
        (runBatch 1 demoTasks 2).cancelInvoked = true) ∧
     (runBatch 1 demoTasks 2).elapsed ≤ 2) :=
  ⟨by simp [demoTasks], c3_timeout_returns_partial 1 2 demoTasks (by simp [demoTasks])⟩

end PoolSpec

end GoBrewery
